import Mathlib

/-!
Shallow embedding of the statistics and date-range engine of the
Consistency Tracker (src/script.js).

Modelling conventions:

* A canonical `YYYY-MM-DD` date string is represented by its epoch-day
  number (`Int`, days since 1970-01-01, midnight UTC).  For canonical
  date strings, lexicographic string comparison coincides with the
  numeric order of epoch days, and the script's
  `Math.floor((end - start) / 86400000)` on two midnight-UTC instants
  is exactly epoch-day subtraction, so both the string comparisons
  (`isDateWithinRange`, `.sort()`) and the `Date`-arithmetic
  (`calculateDaysDifference`) of the source act on this one
  representation.  `daysFromCivil` is the Gregorian conversion
  performed by `new Date(dateStr + "T00:00:00Z")` and is used to name
  concrete dates.
* A habit's `completionDates` field may be missing or not an array in
  stored data; both are modelled by `none`.
* The source reads "today" from the system clock
  (`getTodayDateString`); here it is an explicit parameter of every
  function that consumes it.
* JS `Array.prototype.sort()` (lexicographic ascending on canonical
  date strings) is modelled by `List.insertionSort (· ≤ ·)`; any
  correct ascending sort is an admissible model since duplicates are
  identical values.
* JS `Math.round` rounds half toward positive infinity; `jsRound`
  mirrors that on exact rationals.
-/

/-- Gregorian civil date (year, month `1..12`, day `1..31`) to epoch-day
number (days since 1970-01-01).  Models the date parsing performed by
`getDateFromString` via `new Date(dateStr + "T00:00:00Z")`. -/
def daysFromCivil (y m d : Nat) : Int :=
  let yAdj := if m ≤ 2 then y - 1 else y
  let era := yAdj / 400
  let yoe := yAdj % 400
  let mp := (m + 9) % 12
  let doy := (153 * mp + 2) / 5 + d - 1
  let doe := yoe * 365 + yoe / 4 - yoe / 100 + doy
  (era * 146097 + doe : Int) - 719468

/-- Habit record (the persisted entity of `script.js`).  `name` and
`createdAt` are not read by any statistics function and are omitted.
`completionDates` is `none` when the stored field is missing or not an
array. -/
structure Habit where
  id : String
  startDate : Int
  endDate : Int
  completionDates : Option (List Int)
deriving DecidableEq

/-- The completion-date list a function sees after the source's
defensive `!habit.completionDates || !Array.isArray(...)` check:
the stored array, or `[]` when the field is missing/malformed. -/
def datesOf (habit : Habit) : List Int :=
  match habit.completionDates with
  | none => []
  | some l => l

/-- Source `calculateDaysDifference`:
`Math.floor((end - start) / 86400000)` on midnight-UTC instants, i.e.
exact epoch-day subtraction. -/
def calculateDaysDifference (startStr endStr : Int) : Int :=
  endStr - startStr

/-- Source `addDaysToDate`. -/
def addDaysToDate (dateStr : Int) (days : Int) : Int :=
  dateStr + days

/-- Source constant `MAX_HABIT_DURATION_DAYS`. -/
def MAX_HABIT_DURATION_DAYS : Int := 90

/-- Result record of `validateDateRange`. -/
structure ValidationResult where
  valid : Bool
  error : String
deriving DecidableEq

/-- Source `validateDateRange`: order check (`end <= start`) first, then
the maximum-duration check with the computed span interpolated into the
message. -/
def validateDateRange (startDateStr endDateStr : Int) : ValidationResult :=
  if endDateStr ≤ startDateStr then
    { valid := false, error := "End date must be after start date" }
  else
    let daysDiff := calculateDaysDifference startDateStr endDateStr
    if daysDiff > MAX_HABIT_DURATION_DAYS then
      { valid := false,
        error := "Maximum duration is " ++ toString MAX_HABIT_DURATION_DAYS
          ++ " days. Your range is " ++ toString daysDiff ++ " days." }
    else
      { valid := true, error := "" }

/-- Source `isHabitCompletedOnDate`: membership test, `false` when
`completionDates` is missing/malformed. -/
def isHabitCompletedOnDate (habit : Habit) (dateStr : Int) : Bool :=
  match habit.completionDates with
  | none => false
  | some l => l.contains dateStr

/-- Source `isDateWithinRange`: `dateStr >= habit.startDate &&
dateStr <= habit.endDate` (lexicographic compare on canonical strings =
numeric compare on epoch days). -/
def isDateWithinRange (habit : Habit) (dateStr : Int) : Bool :=
  habit.startDate ≤ dateStr && dateStr ≤ habit.endDate

/-- Body of the source `toggleHabitCompletion` acting on the (defensively
normalized) completion list: `splice` out the first occurrence found by
`indexOf` when present, otherwise `push`. -/
def toggleDates (dates : List Int) (dateStr : Int) : List Int :=
  if dates.contains dateStr then dates.erase dateStr
  else dates ++ [dateStr]

/-- The mutation the source `toggleHabitCompletion` performs on the habit
it found: normalize a missing `completionDates` to `[]`, then toggle. -/
def toggleHabit (habit : Habit) (dateStr : Int) : Habit :=
  { habit with completionDates := some (toggleDates (datesOf habit) dateStr) }

/-- Source `toggleHabitCompletion` on the stored habit list:
`habits.find(h => h.id === habitId)` locates the first habit with the
given id and only that record is mutated; a missing id is a silent
no-op. -/
def toggleHabitCompletion : List Habit → String → Int → List Habit
  | [], _, _ => []
  | habit :: rest, habitId, dateStr =>
    if habit.id = habitId then toggleHabit habit dateStr :: rest
    else habit :: toggleHabitCompletion rest habitId dateStr

/-- Source `getHabitStatus`, with "today" explicit. -/
def getHabitStatus (habit : Habit) (today : Int) : String :=
  if today < habit.startDate then "not-started"
  else if today > habit.endDate then "completed"
  else "active"

/-- Abstract model of `Date.prototype.toLocaleDateString` (an opaque,
locale-dependent formatting; no claim inspects these strings). -/
def localeDateString (dateStr : Int) : String :=
  toString dateStr

/-- Source `getStatusMessage`, with "today" explicit. -/
def getStatusMessage (habit : Habit) (today : Int) : String :=
  let status := getHabitStatus habit today
  if status = "not-started" then
    "Starts on " ++ localeDateString habit.startDate
  else if status = "completed" then
    "Ended on " ++ localeDateString habit.endDate
  else
    let daysLeft := calculateDaysDifference today habit.endDate + 1
    toString daysLeft ++ " day" ++ (if daysLeft ≠ 1 then "s" else "") ++ " remaining"

/-- One step of the source `calculateCurrentStreak` while-loop, with
explicit fuel.  The loop breaks as soon as the walked date leaves the
habit's range, so any fuel of at least `today - startDate + 1` steps is
equivalent to the unbounded loop (`streakAux_fuel_sufficient` below). -/
def streakAux (habit : Habit) : Nat → Int → Nat
  | 0, _ => 0
  | fuel + 1, d =>
    if isDateWithinRange habit d && isHabitCompletedOnDate habit d then
      streakAux habit fuel (d - 1) + 1
    else 0

/-- Source `calculateCurrentStreak`: walk backward day-by-day from
"today"; stop on leaving the range or on a non-completed day. -/
def calculateCurrentStreak (habit : Habit) (today : Int) : Nat :=
  streakAux habit (today - habit.startDate + 1).toNat today

/-- The `for` loop of the source `calculateLongestStreak`: scan the
sorted in-range dates, extending the running streak when adjacent dates
differ by exactly one day and resetting it to 1 otherwise. -/
def longestLoop (prev : Int) (currentStreak maxStreak : Nat) : List Int → Nat
  | [] => maxStreak
  | curr :: rest =>
    if curr - prev = 1 then
      longestLoop curr (currentStreak + 1) (max maxStreak (currentStreak + 1)) rest
    else
      longestLoop curr 1 maxStreak rest

/-- Source `calculateLongestStreak`: defensive default for a malformed
field, filter to in-range dates, sort ascending, scan for maximal runs
(0 for an empty filtered set, scan seeded with streak 1 otherwise). -/
def calculateLongestStreak (habit : Habit) : Nat :=
  match habit.completionDates with
  | none => 0
  | some dates =>
    let datesInRange := dates.filter (fun d => isDateWithinRange habit d)
    match List.insertionSort (· ≤ ·) datesInRange with
    | [] => 0
    | first :: rest => longestLoop first 1 1 rest

/-- Source `calculateTotalCompleted`: count of in-range completion
entries, 0 for a malformed field. -/
def calculateTotalCompleted (habit : Habit) : Nat :=
  match habit.completionDates with
  | none => 0
  | some dates => (dates.filter (fun d => isDateWithinRange habit d)).length

/-- JS `Math.round` on exact rationals: round half toward positive
infinity. -/
def jsRound (x : Rat) : Int :=
  ⌊x + 1 / 2⌋

/-- Source `calculateCompletionPercentage`:
`Math.round((completedDays / daysDiff) * 100)` clamped by
`Math.min(percentage, 100)`, with the defensive `daysDiff === 0`
early return. -/
def calculateCompletionPercentage (habit : Habit) : Int :=
  let daysDiff := calculateDaysDifference habit.startDate habit.endDate + 1
  if daysDiff = 0 then 0
  else
    let completedDays := calculateTotalCompleted habit
    let percentage := jsRound ((completedDays : Rat) / (daysDiff : Rat) * 100)
    min percentage 100

/-- The list of consecutive epoch days `a, a+1, ..., a+k-1` (proof
device for reasoning about runs of consecutive calendar days). -/
def chainL (a : Int) : Nat → List Int
  | 0 => []
  | k + 1 => a :: chainL (a + 1) k

/-- Agreement relation for the toggle-twice theorem: the second habit
record has the same membership status for the toggled date `d` and the
same derived statistics (current streak at every evaluation date, best
streak, total completed, completion percentage) as the first. -/
def statsAgree (d : Int) (hb hb2 : Habit) : Prop :=
  isHabitCompletedOnDate hb2 d = isHabitCompletedOnDate hb d ∧
  (∀ t, calculateCurrentStreak hb2 t = calculateCurrentStreak hb t) ∧
  calculateLongestStreak hb2 = calculateLongestStreak hb ∧
  calculateTotalCompleted hb2 = calculateTotalCompleted hb ∧
  calculateCompletionPercentage hb2 = calculateCompletionPercentage hb

example : daysFromCivil 2024 1 1 = 19723 := by decide
example : daysFromCivil 2024 6 1 - daysFromCivil 2024 1 1 = 152 := by decide
example : daysFromCivil 2024 1 10 = 19732 := by decide
example :
    calculateCurrentStreak
      { id := "b", startDate := 19723, endDate := 19732,
        completionDates := some [19723, 19724, 19725] } 19725 = 3 := by decide
example :
    calculateLongestStreak
      { id := "x", startDate := 0, endDate := 9,
        completionDates := some [0, 1, 1, 2] } = 2 := by decide
example :
    calculateCurrentStreak
      { id := "x", startDate := 0, endDate := 9,
        completionDates := some [0, 1, 1, 2] } 2 = 3 := by decide
example :
    calculateCompletionPercentage
      { id := "a", startDate := 19723, endDate := 19732,
        completionDates := some [19723, 19724, 19725, 19727] } = 40 := by
  simp [calculateCompletionPercentage, calculateTotalCompleted,
    calculateDaysDifference, isDateWithinRange, jsRound]
  norm_num

/-! ### Helper lemmas -/

lemma completed_eq_contains (habit : Habit) (x : Int) :
    isHabitCompletedOnDate habit x = (datesOf habit).contains x := by
  cases h : habit.completionDates <;> simp [isHabitCompletedOnDate, datesOf, h]

lemma totalCompleted_eq (habit : Habit) :
    calculateTotalCompleted habit
      = ((datesOf habit).filter (fun d => isDateWithinRange habit d)).length := by
  cases h : habit.completionDates <;> simp [calculateTotalCompleted, datesOf, h]

lemma longestStreak_eq (habit : Habit) :
    calculateLongestStreak habit
      = match List.insertionSort (· ≤ ·)
          ((datesOf habit).filter (fun d => isDateWithinRange habit d)) with
        | [] => 0
        | first :: rest => longestLoop first 1 1 rest := by
  cases h : habit.completionDates <;> simp [calculateLongestStreak, datesOf, h]

/-! ### Claim theorems, easy batch -/

/-- C6: whenever the end date is not strictly after the start date
(day-difference below 1), `validateDateRange` rejects with the
invalid-order message; in particular it rejects the pair
(2024-01-01, 2024-01-01). -/
theorem c6_invalid_order :
    (∀ s e : Int, calculateDaysDifference s e < 1 →
      validateDateRange s e
        = { valid := false, error := "End date must be after start date" }) ∧
    validateDateRange (daysFromCivil 2024 1 1) (daysFromCivil 2024 1 1)
      = { valid := false, error := "End date must be after start date" } := by
  constructor
  · intro s e h
    have hle : e ≤ s := by
      simp only [calculateDaysDifference] at h; omega
    simp [validateDateRange, hle]
  · decide

/-- Witness for `c6_invalid_order`: its hypothesis discharged at the
concrete pair (2024-03-05, 2024-03-05). -/
theorem c6_invalid_order_witness :
    calculateDaysDifference (daysFromCivil 2024 3 5) (daysFromCivil 2024 3 5) < 1 ∧
    validateDateRange (daysFromCivil 2024 3 5) (daysFromCivil 2024 3 5)
      = { valid := false, error := "End date must be after start date" } :=
  ⟨by decide, c6_invalid_order.1 _ _ (by decide)⟩

/-- C5: whenever the computed span exceeds the 90-day maximum,
`validateDateRange` rejects with the duration message reporting the
actual span; in particular (2024-01-01, 2024-06-01) is rejected
reporting a 152-day span. -/
theorem c5_duration_exceeded :
    (∀ s e : Int, MAX_HABIT_DURATION_DAYS < calculateDaysDifference s e →
      validateDateRange s e
        = { valid := false,
            error := "Maximum duration is " ++ toString MAX_HABIT_DURATION_DAYS
              ++ " days. Your range is " ++ toString (calculateDaysDifference s e)
              ++ " days." }) ∧
    validateDateRange (daysFromCivil 2024 1 1) (daysFromCivil 2024 6 1)
      = { valid := false,
          error := "Maximum duration is 90 days. Your range is 152 days." } := by
  constructor
  · intro s e h
    have hgt : ¬ e ≤ s := by
      simp only [calculateDaysDifference, MAX_HABIT_DURATION_DAYS] at h; omega
    simp [validateDateRange, hgt, h]
  · decide

/-- Witness for `c5_duration_exceeded`: its hypothesis discharged at the
concrete pair (2024-01-01, 2024-06-01), whose span is 152 days. -/
theorem c5_duration_exceeded_witness :
    MAX_HABIT_DURATION_DAYS
        < calculateDaysDifference (daysFromCivil 2024 1 1) (daysFromCivil 2024 6 1) ∧
    validateDateRange (daysFromCivil 2024 1 1) (daysFromCivil 2024 6 1)
      = { valid := false,
          error := "Maximum duration is "
            ++ toString MAX_HABIT_DURATION_DAYS ++ " days. Your range is "
            ++ toString (calculateDaysDifference (daysFromCivil 2024 1 1)
                  (daysFromCivil 2024 6 1))
            ++ " days." } :=
  ⟨by decide, c5_duration_exceeded.1 _ _ (by decide)⟩

/-- C9: when `completionDates` is missing or not an array (modelled by
`none`), the statistics functions substitute the empty set:
`isHabitCompletedOnDate` is `false`, `calculateLongestStreak` and
`calculateTotalCompleted` are 0 (and, being total functions, never
throw). -/
theorem c9_defensive_defaults (habit : Habit)
    (hmissing : habit.completionDates = none) (d : Int) :
    isHabitCompletedOnDate habit d = false ∧
    calculateLongestStreak habit = 0 ∧
    calculateTotalCompleted habit = 0 := by
  refine ⟨?_, ?_, ?_⟩ <;>
    simp [isHabitCompletedOnDate, calculateLongestStreak,
      calculateTotalCompleted, hmissing]

/-- Witness for `c9_defensive_defaults` at a concrete record with a
missing `completionDates` field. -/
theorem c9_defensive_defaults_witness :
    (Habit.mk "legacy" 19723 19732 none).completionDates = none ∧
    (isHabitCompletedOnDate (Habit.mk "legacy" 19723 19732 none) 19725 = false ∧
      calculateLongestStreak (Habit.mk "legacy" 19723 19732 none) = 0 ∧
      calculateTotalCompleted (Habit.mk "legacy" 19723 19732 none) = 0) :=
  ⟨rfl, c9_defensive_defaults _ rfl 19725⟩

/-- C2: the current streak is zero whenever "today" itself is outside
the range or not completed, and for the habit
[2024-01-01, 2024-01-10] with completions 2024-01-01..03, evaluated at
today = 2024-01-03, it is 3. -/
theorem c2_current_streak_anchored :
    (∀ (habit : Habit) (today : Int),
      isDateWithinRange habit today = false ∨
        isHabitCompletedOnDate habit today = false →
      calculateCurrentStreak habit today = 0) ∧
    calculateCurrentStreak
      { id := "habit", startDate := daysFromCivil 2024 1 1,
        endDate := daysFromCivil 2024 1 10,
        completionDates := some
          [daysFromCivil 2024 1 1, daysFromCivil 2024 1 2, daysFromCivil 2024 1 3] }
      (daysFromCivil 2024 1 3) = 3 := by
  constructor
  · intro habit today h
    unfold calculateCurrentStreak
    cases hf : (today - habit.startDate + 1).toNat with
    | zero => rfl
    | succ n =>
      have hguard :
          (isDateWithinRange habit today && isHabitCompletedOnDate habit today)
            = false := by
        rcases h with h | h <;> simp [h]
      simp [streakAux, hguard]
  · decide

/-- Witness for `c2_current_streak_anchored`: today completed but one
day past the end of the range gives a zero streak. -/
theorem c2_current_streak_anchored_witness :
    (isDateWithinRange
        { id := "w", startDate := 19723, endDate := 19732,
          completionDates := some [19733] } 19733 = false ∨
      isHabitCompletedOnDate
        { id := "w", startDate := 19723, endDate := 19732,
          completionDates := some [19733] } 19733 = false) ∧
    calculateCurrentStreak
      { id := "w", startDate := 19723, endDate := 19732,
        completionDates := some [19733] } 19733 = 0 :=
  ⟨Or.inl (by decide), c2_current_streak_anchored.1 _ _ (Or.inl (by decide))⟩

/-- C7: the status classifier returns not-started exactly below the
start date, active exactly inside the inclusive range (including
today = endDate), completed exactly past the end date; in the active
state the message is the days-remaining string for
`dayDifference(today, endDate) + 1` with a plural "s" exactly when that
value differs from 1, so today = endDate yields "1 day remaining".
Stated under the data-model range invariant `startDate ≤ endDate`
(every habit the app creates satisfies the strictly stronger
`startDate < endDate`, enforced by `validateDateRange`); on an
inverted range the first branch of the source makes a day strictly
between `endDate` and `startDate` classify as not-started. -/
theorem c7_status_classifier (habit : Habit) (today : Int)
    (hrange : habit.startDate ≤ habit.endDate) :
    (getHabitStatus habit today = "not-started" ↔ today < habit.startDate) ∧
    (getHabitStatus habit today = "active" ↔
      habit.startDate ≤ today ∧ today ≤ habit.endDate) ∧
    (getHabitStatus habit today = "completed" ↔ habit.endDate < today) ∧
    (habit.startDate ≤ today → today ≤ habit.endDate →
      getStatusMessage habit today =
        toString (calculateDaysDifference today habit.endDate + 1) ++ " day" ++
          (if calculateDaysDifference today habit.endDate + 1 ≠ 1 then "s" else "")
          ++ " remaining") ∧
    (habit.startDate ≤ habit.endDate →
      getStatusMessage habit habit.endDate = "1 day remaining") := by
  refine ⟨?_, ?_, ?_, ?_, ?_⟩
  · unfold getHabitStatus
    split_ifs with h1 h2 <;> simp_all <;> omega
  · unfold getHabitStatus
    split_ifs with h1 h2 <;> simp_all <;> omega
  · unfold getHabitStatus
    split_ifs with h1 h2 <;> simp_all <;> omega
  · intro h1 h2
    have hs : getHabitStatus habit today = "active" := by
      unfold getHabitStatus
      split_ifs with g1 g2 <;> first | rfl | omega
    simp [getStatusMessage, hs]
  · intro h1
    have hs : getHabitStatus habit habit.endDate = "active" := by
      unfold getHabitStatus
      split_ifs with g1 g2 <;> first | rfl | omega
    have hd : calculateDaysDifference habit.endDate habit.endDate + 1 = 1 := by
      simp [calculateDaysDifference]
    simp [getStatusMessage, hs, hd]
    decide

/-- Witness for `c7_status_classifier` at a concrete habit evaluated on
its end date. -/
theorem c7_status_classifier_witness :
    ((19723 : Int) ≤ 19732 ∧ (19732 : Int) ≤ 19732) ∧
    getHabitStatus
      { id := "w", startDate := 19723, endDate := 19732,
        completionDates := some [] } 19732 = "active" ∧
    getStatusMessage
      { id := "w", startDate := 19723, endDate := 19732,
        completionDates := some [] } 19732 = "1 day remaining" :=
  ⟨⟨by decide, by decide⟩,
    ((c7_status_classifier
        { id := "w", startDate := 19723, endDate := 19732,
          completionDates := some [] } 19732 (by decide)).2.1.mpr
      ⟨by decide, by decide⟩),
    ((c7_status_classifier
        { id := "w", startDate := 19723, endDate := 19732,
          completionDates := some [] } 19732 (by decide)).2.2.2.2 (by decide))⟩

/-- C1 counterexample: with a duplicated completion entry the longest
streak falls below the current streak.  Range [0,9], completions
`[0,1,1,2]`, today = 2: the backward walk gives a current streak of 3,
but the duplicate resets the sorted scan, giving a longest streak
of 2. -/
theorem c1_counterexample :
    ¬ (calculateCurrentStreak
        { id := "x", startDate := 0, endDate := 9,
          completionDates := some [0, 1, 1, 2] } 2
      ≤ calculateLongestStreak
        { id := "x", startDate := 0, endDate := 9,
          completionDates := some [0, 1, 1, 2] }) := by
  decide

/-- C4 counterexample: with the date 5 stored twice, toggling (id "a",
date 5) twice on the store removes both occurrences: membership of the
date flips from true to false and `totalCompleted` drops from 2 to 0. -/
theorem c4_counterexample :
    toggleHabitCompletion
        (toggleHabitCompletion
          [{ id := "a", startDate := 0, endDate := 9,
             completionDates := some [5, 5] }] "a" 5) "a" 5
      = [{ id := "a", startDate := 0, endDate := 9,
           completionDates := some [] }] ∧
    isHabitCompletedOnDate
        { id := "a", startDate := 0, endDate := 9,
          completionDates := some [5, 5] } 5 = true ∧
    isHabitCompletedOnDate
        { id := "a", startDate := 0, endDate := 9,
          completionDates := some [] } 5 = false ∧
    calculateTotalCompleted
        { id := "a", startDate := 0, endDate := 9,
          completionDates := some [5, 5] } = 2 ∧
    calculateTotalCompleted
        { id := "a", startDate := 0, endDate := 9,
          completionDates := some [] } = 0 := by
  refine ⟨?_, by decide, by decide, by decide, by decide⟩
  decide

lemma filter_inRange_nil_of_inverted (habit : Habit)
    (h : habit.endDate < habit.startDate) (l : List Int) :
    l.filter (fun d => isDateWithinRange habit d) = [] := by
  refine List.filter_eq_nil_iff.mpr ?_
  intro a _
  simp only [isDateWithinRange, Bool.and_eq_true, decide_eq_true_eq, not_and]
  intro h1 h2
  omega

/-- C3: the completion percentage is the rounded ratio of in-range
completions over the inclusive span, clamped at 100, with a defensive 0
on a zero span; it always lies in [0, 100], whatever (duplicate or
out-of-range) entries `completionDates` holds. -/
theorem c3_completion_percentage (habit : Habit) :
    0 ≤ calculateCompletionPercentage habit ∧
    calculateCompletionPercentage habit ≤ 100 ∧
    (calculateDaysDifference habit.startDate habit.endDate + 1 = 0 →
      calculateCompletionPercentage habit = 0) ∧
    (calculateDaysDifference habit.startDate habit.endDate + 1 ≠ 0 →
      calculateCompletionPercentage habit =
        min (jsRound ((calculateTotalCompleted habit : Rat) /
          ((calculateDaysDifference habit.startDate habit.endDate + 1 : Int) : Rat)
            * 100)) 100) := by
  by_cases hn : calculateDaysDifference habit.startDate habit.endDate + 1 = 0
  · refine ⟨?_, ?_, fun _ => ?_, fun hc => absurd hn hc⟩ <;>
      simp [calculateCompletionPercentage, hn]
  · have hval : calculateCompletionPercentage habit =
        min (jsRound ((calculateTotalCompleted habit : Rat) /
          ((calculateDaysDifference habit.startDate habit.endDate + 1 : Int) : Rat)
            * 100)) 100 := by
      simp [calculateCompletionPercentage, hn]
    have hub : calculateCompletionPercentage habit ≤ 100 := by
      rw [hval]; exact min_le_right _ _
    have hlb : 0 ≤ calculateCompletionPercentage habit := by
      rw [hval]
      rcases lt_or_gt_of_ne hn with hneg | hpos
      · have hinv : habit.endDate < habit.startDate := by
          simp only [calculateDaysDifference] at hneg; omega
        have hzero : calculateTotalCompleted habit = 0 := by
          rw [totalCompleted_eq, filter_inRange_nil_of_inverted habit hinv]
          rfl
        rw [hzero]
        have : jsRound ((0 : Rat) /
            ((calculateDaysDifference habit.startDate habit.endDate + 1 : Int) : Rat)
              * 100) = 0 := by
          simp [jsRound]
          norm_num
        simp only [Nat.cast_zero, this, le_min_iff]
        exact ⟨le_refl 0, by norm_num⟩
      · have hq : (0 : Rat) ≤ (calculateTotalCompleted habit : Rat) /
            ((calculateDaysDifference habit.startDate habit.endDate + 1 : Int) : Rat)
              * 100 := by
          have h1 : (0 : Rat) ≤ (calculateTotalCompleted habit : Rat) :=
            Nat.cast_nonneg _
          have h2 : (0 : Rat) <
              ((calculateDaysDifference habit.startDate habit.endDate + 1 : Int)
                : Rat) := by
            exact_mod_cast hpos
          positivity
        have hp : (0 : Int) ≤ jsRound ((calculateTotalCompleted habit : Rat) /
            ((calculateDaysDifference habit.startDate habit.endDate + 1 : Int) : Rat)
              * 100) := by
          refine Int.le_floor.mpr ?_
          push_cast
          push_cast at hq
          linarith
        exact le_min hp (by norm_num)
    exact ⟨hlb, hub, fun hc => absurd hc hn, fun _ => hval⟩

/-- Witness for `c3_completion_percentage`: a ten-day habit with four
in-range completions (and the nonzero-span hypothesis discharged) has
the clamped rounded percentage, which evaluates to 40. -/
theorem c3_completion_percentage_witness :
    (calculateDaysDifference 19723 19732 + 1 ≠ 0) ∧
    calculateCompletionPercentage
        { id := "w", startDate := 19723, endDate := 19732,
          completionDates := some [19723, 19724, 19725, 19727] }
      = min (jsRound ((calculateTotalCompleted
          { id := "w", startDate := 19723, endDate := 19732,
            completionDates := some [19723, 19724, 19725, 19727] } : Rat) /
          ((calculateDaysDifference 19723 19732 + 1 : Int) : Rat) * 100)) 100 ∧
    calculateCompletionPercentage
        { id := "w", startDate := 19723, endDate := 19732,
          completionDates := some [19723, 19724, 19725, 19727] } = 40 :=
  ⟨by decide,
    (c3_completion_percentage _).2.2.2 (by decide),
    by
      simp [calculateCompletionPercentage, calculateTotalCompleted,
        calculateDaysDifference, isDateWithinRange, jsRound]
      norm_num⟩

lemma toggle_skip_prefix (u tail : List Habit) (i : String) (d : Int)
    (hu : ∀ x ∈ u, x.id ≠ i) :
    toggleHabitCompletion (u ++ tail) i d = u ++ toggleHabitCompletion tail i d := by
  induction u with
  | nil => rfl
  | cons a u ih =>
    have ha : a.id ≠ i := hu a (by simp)
    simp only [List.cons_append, toggleHabitCompletion, ha, if_false, ite_false,
      if_neg ha, List.cons.injEq, true_and]
    exact ih (fun x hx => hu x (by simp [hx]))

lemma contains_of_two_le_count (l : List Int) (d : Int) (h : 2 ≤ l.count d) :
    l.contains d = true := by
  have : d ∈ l := List.count_pos_iff.mp (by omega)
  exact List.elem_iff.mpr this

/-- C10: when the toggled date occurs more than once in the first habit
matching the id, one call of `toggleHabitCompletion` rewrites exactly
that habit, removing exactly one occurrence (the first, via
`indexOf`/`splice` = `List.erase`), so the date is still a member of the
completion set afterward. -/
theorem c10_duplicate_single_toggle (habits u v : List Habit) (hb : Habit)
    (i : String) (d : Int)
    (hsplit : habits = u ++ hb :: v) (hid : hb.id = i)
    (hfirst : ∀ x ∈ u, x.id ≠ i)
    (hcount : 2 ≤ (datesOf hb).count d) :
    toggleHabitCompletion habits i d = u ++ toggleHabit hb d :: v ∧
    datesOf (toggleHabit hb d) = (datesOf hb).erase d ∧
    (datesOf (toggleHabit hb d)).count d = (datesOf hb).count d - 1 ∧
    isHabitCompletedOnDate (toggleHabit hb d) d = true := by
  have hcontains : (datesOf hb).contains d = true :=
    contains_of_two_le_count _ _ hcount
  have herase : datesOf (toggleHabit hb d) = (datesOf hb).erase d := by
    show toggleDates (datesOf hb) d = (datesOf hb).erase d
    simp only [toggleDates, hcontains, if_true]
  have hcnt : (datesOf (toggleHabit hb d)).count d = (datesOf hb).count d - 1 := by
    rw [herase, List.count_erase_self]
  refine ⟨?_, herase, hcnt, ?_⟩
  · rw [hsplit, toggle_skip_prefix u (hb :: v) i d hfirst]
    simp [toggleHabitCompletion, hid]
  · rw [completed_eq_contains]
    refine List.elem_iff.mpr (List.count_pos_iff.mp ?_)
    omega

/-- Witness for `c10_duplicate_single_toggle`: a one-habit store whose
habit holds the date 5 twice. -/
theorem c10_duplicate_single_toggle_witness :
    ([{ id := "a", startDate := 0, endDate := 9,
        completionDates := some [5, 5, 7] }]
      = ([] : List Habit) ++
        { id := "a", startDate := 0, endDate := 9,
          completionDates := some [5, 5, 7] } :: []) ∧
    (toggleHabitCompletion
        [{ id := "a", startDate := 0, endDate := 9,
           completionDates := some [5, 5, 7] }] "a" 5
      = [] ++ toggleHabit
          { id := "a", startDate := 0, endDate := 9,
            completionDates := some [5, 5, 7] } 5 :: [] ∧
      datesOf (toggleHabit
          { id := "a", startDate := 0, endDate := 9,
            completionDates := some [5, 5, 7] } 5)
        = (datesOf
            { id := "a", startDate := 0, endDate := 9,
              completionDates := some [5, 5, 7] }).erase 5 ∧
      (datesOf (toggleHabit
          { id := "a", startDate := 0, endDate := 9,
            completionDates := some [5, 5, 7] } 5)).count 5
        = (datesOf
            { id := "a", startDate := 0, endDate := 9,
              completionDates := some [5, 5, 7] }).count 5 - 1 ∧
      isHabitCompletedOnDate (toggleHabit
          { id := "a", startDate := 0, endDate := 9,
            completionDates := some [5, 5, 7] } 5) 5 = true) :=
  ⟨rfl,
    c10_duplicate_single_toggle _ [] []
      { id := "a", startDate := 0, endDate := 9,
        completionDates := some [5, 5, 7] } "a" 5 rfl rfl
      (by intro x hx; cases hx) (by decide)⟩

/-! ### Toggle-twice machinery (claim C4) -/

lemma contains_eq_decide_mem (l : List Int) (x : Int) :
    l.contains x = decide (x ∈ l) := by
  by_cases hx : x ∈ l <;> simp [List.elem_iff, hx]

lemma perm_toggleTwice (l : List Int) (d : Int) (h : l.count d ≤ 1) :
    (toggleDates (toggleDates l d) d).Perm l := by
  by_cases hmem : d ∈ l
  · have hc1 : l.contains d = true := List.elem_iff.mpr hmem
    have e1 : toggleDates l d = l.erase d := by
      simp only [toggleDates, hc1, if_true]
    have hnotmem : d ∉ l.erase d := by
      have : (l.erase d).count d = l.count d - 1 := List.count_erase_self d l
      have hpos : 1 ≤ l.count d := List.count_pos_iff.mpr hmem
      refine List.count_eq_zero.mp ?_
      omega
    have hc2 : (l.erase d).contains d = false := by
      simp [contains_eq_decide_mem, hnotmem]
    have e2 : toggleDates (l.erase d) d = l.erase d ++ [d] := by
      simp only [toggleDates, hc2, Bool.false_eq_true, if_false]
    rw [e1, e2]
    exact (List.perm_append_singleton d (l.erase d)).trans
      (List.perm_cons_erase hmem).symm
  · have hc1 : l.contains d = false := by
      simp [contains_eq_decide_mem, hmem]
    have e1 : toggleDates l d = l ++ [d] := by
      simp only [toggleDates, hc1, Bool.false_eq_true, if_false]
    have hc2 : (l ++ [d]).contains d = true :=
      List.elem_iff.mpr (by simp)
    have e2 : toggleDates (l ++ [d]) d = l := by
      simp only [toggleDates, hc2, if_true]
      rw [List.erase_append_right [d] hmem, List.erase_cons_head]
      simp
    rw [e1, e2]

lemma inRange_congr (h1 h2 : Habit) (hs : h1.startDate = h2.startDate)
    (he : h1.endDate = h2.endDate) (x : Int) :
    isDateWithinRange h1 x = isDateWithinRange h2 x := by
  simp [isDateWithinRange, hs, he]

lemma completed_congr (h1 h2 : Habit) (hp : (datesOf h1).Perm (datesOf h2))
    (x : Int) : isHabitCompletedOnDate h1 x = isHabitCompletedOnDate h2 x := by
  rw [completed_eq_contains, completed_eq_contains,
    contains_eq_decide_mem, contains_eq_decide_mem]
  exact decide_eq_decide.mpr hp.mem_iff

lemma totalCompleted_congr (h1 h2 : Habit) (hs : h1.startDate = h2.startDate)
    (he : h1.endDate = h2.endDate) (hp : (datesOf h1).Perm (datesOf h2)) :
    calculateTotalCompleted h1 = calculateTotalCompleted h2 := by
  rw [totalCompleted_eq, totalCompleted_eq]
  have hfun : (fun d => isDateWithinRange h1 d) = fun d => isDateWithinRange h2 d :=
    funext (inRange_congr h1 h2 hs he)
  rw [hfun]
  exact (hp.filter _).length_eq

lemma streakAux_congr (h1 h2 : Habit) (hs : h1.startDate = h2.startDate)
    (he : h1.endDate = h2.endDate)
    (hm : ∀ x, isHabitCompletedOnDate h1 x = isHabitCompletedOnDate h2 x) :
    ∀ fuel d, streakAux h1 fuel d = streakAux h2 fuel d := by
  intro fuel
  induction fuel with
  | zero => intro d; rfl
  | succ n ih =>
    intro d
    simp only [streakAux, inRange_congr h1 h2 hs he d, hm d, ih (d - 1)]

lemma currentStreak_congr (h1 h2 : Habit) (hs : h1.startDate = h2.startDate)
    (he : h1.endDate = h2.endDate)
    (hm : ∀ x, isHabitCompletedOnDate h1 x = isHabitCompletedOnDate h2 x)
    (t : Int) : calculateCurrentStreak h1 t = calculateCurrentStreak h2 t := by
  unfold calculateCurrentStreak
  rw [hs, streakAux_congr h1 h2 hs he hm]

lemma sort_congr_of_perm (l1 l2 : List Int) (hp : l1.Perm l2) :
    List.insertionSort (· ≤ ·) l1 = List.insertionSort (· ≤ ·) l2 := by
  have hperm : (List.insertionSort (· ≤ ·) l1).Perm (List.insertionSort (· ≤ ·) l2) :=
    ((List.perm_insertionSort _ _).trans hp).trans
      (List.perm_insertionSort _ _).symm
  exact @List.eq_of_perm_of_sorted Int (· ≤ ·) _ _ _ hperm
    (List.sorted_insertionSort _ _) (List.sorted_insertionSort _ _)

lemma longestStreak_congr (h1 h2 : Habit) (hs : h1.startDate = h2.startDate)
    (he : h1.endDate = h2.endDate) (hp : (datesOf h1).Perm (datesOf h2)) :
    calculateLongestStreak h1 = calculateLongestStreak h2 := by
  rw [longestStreak_eq, longestStreak_eq]
  have hfun : (fun d => isDateWithinRange h1 d) = fun d => isDateWithinRange h2 d :=
    funext (inRange_congr h1 h2 hs he)
  rw [hfun, sort_congr_of_perm _ _ (hp.filter _)]

lemma percentage_congr (h1 h2 : Habit) (hs : h1.startDate = h2.startDate)
    (he : h1.endDate = h2.endDate) (hp : (datesOf h1).Perm (datesOf h2)) :
    calculateCompletionPercentage h1 = calculateCompletionPercentage h2 := by
  unfold calculateCompletionPercentage
  rw [hs, he, totalCompleted_congr h1 h2 hs he hp]

lemma statsAgree_toggleTwice (hb : Habit) (d : Int)
    (hcnt : (datesOf hb).count d ≤ 1) :
    statsAgree d hb (toggleHabit (toggleHabit hb d) d) := by
  have hp : (datesOf (toggleHabit (toggleHabit hb d) d)).Perm (datesOf hb) :=
    perm_toggleTwice (datesOf hb) d hcnt
  exact ⟨completed_congr (toggleHabit (toggleHabit hb d) d) hb hp d,
    fun t => currentStreak_congr (toggleHabit (toggleHabit hb d) d) hb rfl rfl
      (completed_congr (toggleHabit (toggleHabit hb d) d) hb hp) t,
    longestStreak_congr (toggleHabit (toggleHabit hb d) d) hb rfl rfl hp,
    totalCompleted_congr (toggleHabit (toggleHabit hb d) d) hb rfl rfl hp,
    percentage_congr (toggleHabit (toggleHabit hb d) d) hb rfl rfl hp⟩

lemma forall₂_statsAgree_self (d : Int) (l : List Habit) :
    List.Forall₂ (statsAgree d) l l := by
  induction l with
  | nil => exact List.Forall₂.nil
  | cons a rest ih =>
    exact List.Forall₂.cons ⟨rfl, fun _ => rfl, rfl, rfl, rfl⟩ ih

/-- C4 (amended): provided the toggled date occurs at most once in the
`completionDates` of each habit carrying the toggled id — as in every
state the app itself can produce, since toggling never stores a
duplicate — toggling the same (habitId, dateStr) pair twice restores,
for every habit of the store, the original membership of that date and
all derived statistics.  The unrestricted claim fails when the date is
stored twice, since each toggle then removes one of the occurrences. -/
theorem c4_toggle_twice_restores (habits : List Habit) (i : String) (d : Int)
    (hcount : ∀ hb ∈ habits, hb.id = i → (datesOf hb).count d ≤ 1) :
    List.Forall₂ (statsAgree d) habits
      (toggleHabitCompletion (toggleHabitCompletion habits i d) i d) := by
  induction habits with
  | nil => exact List.Forall₂.nil
  | cons a rest ih =>
    by_cases ha : a.id = i
    · have h1 : toggleHabitCompletion (a :: rest) i d = toggleHabit a d :: rest := by
        simp [toggleHabitCompletion, ha]
      have ha2 : (toggleHabit a d).id = i := ha
      have h2 : toggleHabitCompletion (toggleHabit a d :: rest) i d
          = toggleHabit (toggleHabit a d) d :: rest := by
        simp [toggleHabitCompletion, ha2]
      rw [h1, h2]
      exact List.Forall₂.cons
        (statsAgree_toggleTwice a d (hcount a (by simp) ha))
        (forall₂_statsAgree_self d rest)
    · have hstep : ∀ tl, toggleHabitCompletion (a :: tl) i d
          = a :: toggleHabitCompletion tl i d := by
        intro tl
        simp [toggleHabitCompletion, ha]
      rw [hstep, hstep]
      exact List.Forall₂.cons ⟨rfl, fun _ => rfl, rfl, rfl, rfl⟩
        (ih (fun hb hm hid => hcount hb (by simp [hm]) hid))

/-- Witness for `c4_toggle_twice_restores`: a one-habit store holding
the date 5 exactly once. -/
theorem c4_toggle_twice_restores_witness :
    (∀ hb ∈ [{ id := "a", startDate := 0, endDate := 9,
               completionDates := some [5, 7] : Habit }],
      hb.id = "a" → (datesOf hb).count 5 ≤ 1) ∧
    List.Forall₂ (statsAgree 5)
      [{ id := "a", startDate := 0, endDate := 9,
         completionDates := some [5, 7] }]
      (toggleHabitCompletion
        (toggleHabitCompletion
          [{ id := "a", startDate := 0, endDate := 9,
             completionDates := some [5, 7] }] "a" 5) "a" 5) :=
  ⟨by decide, c4_toggle_twice_restores _ "a" 5 (by decide)⟩

/-! ### Longest-vs-current machinery (claim C1) -/

lemma mem_chainL : ∀ (k : Nat) (a x : Int),
    x ∈ chainL a k ↔ ∃ i : Nat, i < k ∧ x = a + i := by
  intro k
  induction k with
  | zero => intro a x; simp [chainL]
  | succ k ih =>
    intro a x
    rw [chainL, List.mem_cons, ih (a + 1) x]
    constructor
    · rintro (rfl | ⟨i, hi, rfl⟩)
      · exact ⟨0, by omega, by simp⟩
      · exact ⟨i + 1, by omega, by push_cast; ring⟩
    · rintro ⟨i, hi, rfl⟩
      cases i with
      | zero => left; simp
      | succ j =>
        right
        exact ⟨j, by omega, by push_cast; ring⟩

lemma longestLoop_ge_max (l : List Int) :
    ∀ (prev : Int) (cur maxS : Nat), maxS ≤ longestLoop prev cur maxS l := by
  induction l with
  | nil => intro prev cur maxS; exact le_refl _
  | cons c rest ih =>
    intro prev cur maxS
    simp only [longestLoop]
    split
    · exact le_trans (le_max_left _ _) (ih c (cur + 1) (max maxS (cur + 1)))
    · exact ih c 1 maxS

lemma longestLoop_chain : ∀ (k : Nat) (a : Int) (cur maxS : Nat) (tail : List Int),
    cur ≤ maxS →
    ∃ M, cur + k ≤ M ∧
      longestLoop a cur maxS (chainL (a + 1) k ++ tail)
        = longestLoop (a + (k : Int)) (cur + k) M tail := by
  intro k
  induction k with
  | zero =>
    intro a cur maxS tail h
    refine ⟨maxS, by omega, ?_⟩
    simp [chainL]
  | succ k ih =>
    intro a cur maxS tail h
    obtain ⟨M, hM, heq⟩ := ih (a + 1) (cur + 1) (max maxS (cur + 1)) tail
      (le_max_right _ _)
    refine ⟨M, by omega, ?_⟩
    have hstep : longestLoop a cur maxS (chainL (a + 1) (k + 1) ++ tail)
        = longestLoop (a + 1) (cur + 1) (max maxS (cur + 1))
            (chainL (a + 1 + 1) k ++ tail) := by
      rw [chainL, List.cons_append, longestLoop]
      rw [if_pos (by omega : a + 1 - a = 1)]
    rw [hstep, heq]
    rw [show a + ((k : Nat) + 1 : Nat) = a + 1 + (k : Int) by push_cast; ring]
    rw [show cur + (k + 1) = cur + 1 + k by omega]

lemma longestLoop_reach (u : List Int) :
    ∀ (prev : Int) (cur maxS : Nat) (a : Int) (tail : List Int),
    1 ≤ cur → cur ≤ maxS →
    ∃ c m, 1 ≤ c ∧ c ≤ m ∧
      longestLoop prev cur maxS (u ++ a :: tail) = longestLoop a c m tail := by
  induction u with
  | nil =>
    intro prev cur maxS a tail h1 h2
    simp only [List.nil_append, longestLoop]
    by_cases hd : a - prev = 1
    · exact ⟨cur + 1, max maxS (cur + 1), by omega, le_max_right _ _,
        by rw [if_pos hd]⟩
    · exact ⟨1, maxS, le_refl 1, by omega, by rw [if_neg hd]⟩
  | cons b u2 ih =>
    intro prev cur maxS a tail h1 h2
    simp only [List.cons_append, longestLoop]
    by_cases hd : b - prev = 1
    · rw [if_pos hd]
      exact ih b (cur + 1) (max maxS (cur + 1)) a tail (by omega) (le_max_right _ _)
    · rw [if_neg hd]
      exact ih b 1 maxS a tail (le_refl 1) (by omega)

lemma streakAux_mem (habit : Habit) : ∀ (fuel : Nat) (d : Int) (i : Nat),
    i < streakAux habit fuel d →
    isDateWithinRange habit (d - (i : Int)) = true ∧
      isHabitCompletedOnDate habit (d - (i : Int)) = true := by
  intro fuel
  induction fuel with
  | zero => intro d i h; simp [streakAux] at h
  | succ n ih =>
    intro d i h
    by_cases hg : (isDateWithinRange habit d && isHabitCompletedOnDate habit d) = true
    · rw [streakAux, if_pos hg] at h
      cases i with
      | zero =>
        rw [Bool.and_eq_true] at hg
        obtain ⟨h1, h2⟩ := hg
        constructor <;> simpa
      | succ j =>
        have hj : j < streakAux habit n (d - 1) := by omega
        have hji := ih (d - 1) j hj
        have e : d - 1 - (j : Int) = d - ((j + 1 : Nat) : Int) := by push_cast; ring
        rwa [e] at hji
    · rw [streakAux, if_neg hg] at h
      omega

lemma chain_decomposition : ∀ (k : Nat) (a : Int) (S : List Int),
    List.Sorted (· ≤ ·) S → S.Nodup →
    (∀ i : Nat, i < k → a + (i : Int) ∈ S) →
    ∃ u w, S = u ++ chainL a k ++ w := by
  intro k
  induction k with
  | zero =>
    intro a S _ _ _
    exact ⟨[], S, by simp [chainL]⟩
  | succ k ih =>
    intro a S hsorted hnodup hmem
    rcases Nat.eq_zero_or_pos k with rfl | hk
    · have ha : a ∈ S := by simpa using hmem 0 (by omega)
      obtain ⟨u, w, rfl⟩ := List.append_of_mem ha
      exact ⟨u, w, by simp [chainL]⟩
    · have hmem2 : ∀ i : Nat, i < k → (a + 1) + (i : Int) ∈ S := by
        intro i hi
        have hm := hmem (i + 1) (by omega)
        have e : a + ((i + 1 : Nat) : Int) = (a + 1) + (i : Int) := by
          push_cast; ring
        rwa [e] at hm
      obtain ⟨u, w, hS⟩ := ih (a + 1) S hsorted hnodup hmem2
      have ha : a ∈ S := by simpa using hmem 0 (by omega)
      have ha1chain : (a + 1) ∈ chainL (a + 1) k := by
        rw [mem_chainL]; exact ⟨0, hk, by simp⟩
      have hanochain : a ∉ chainL (a + 1) k := by
        rw [mem_chainL]
        rintro ⟨i, hi, he⟩
        omega
      subst hS
      rw [List.append_assoc] at hsorted hnodup ha
      have hcross := (List.pairwise_append.mp hsorted).2.2
      have hrestsorted := (List.pairwise_append.mp hsorted).2.1
      have hcross2 := (List.pairwise_append.mp hrestsorted).2.2
      have hanow : a ∉ w := by
        intro haw
        have := hcross2 (a + 1) ha1chain a haw
        omega
      have hau : a ∈ u := by
        rcases List.mem_append.mp ha with hu | hcw
        · exact hu
        · rcases List.mem_append.mp hcw with hc | hw
          · exact absurd hc hanochain
          · exact absurd hw hanow
      obtain ⟨u0, u1, rfl⟩ := List.append_of_mem hau
      cases u1 with
      | nil =>
        refine ⟨u0, w, ?_⟩
        simp [chainL, List.append_assoc]
      | cons x u1t =>
        exfalso
        have hxleft : x ∈ u0 ++ a :: x :: u1t := by simp
        have hdisj : (u0 ++ a :: x :: u1t).Disjoint (chainL (a + 1) k ++ w) :=
          List.disjoint_of_nodup_append hnodup
        have hxne1 : x ≠ a + 1 := by
          intro hxe
          exact hdisj hxleft (List.mem_append.mpr (Or.inl (hxe ▸ ha1chain)))
        have hndleft : (a :: x :: u1t).Nodup :=
          ((List.nodup_append.mp hnodup).1).of_append_right
        have hxnea : x ≠ a := by
          intro hxe
          have : a ∉ x :: u1t := (List.nodup_cons.mp hndleft).1
          exact this (by simp [hxe])
        have hsortleft : List.Pairwise (· ≤ ·) (u0 ++ a :: x :: u1t) :=
          (List.pairwise_append.mp hsorted).1
        have halex : a ≤ x := by
          have hp : List.Pairwise (· ≤ ·) (a :: x :: u1t) :=
            ((List.pairwise_append.mp hsortleft).2.1)
          exact (List.pairwise_cons.mp hp).1 x (by simp)
        have hxlea1 : x ≤ a + 1 :=
          hcross x hxleft (a + 1) (List.mem_append.mpr (Or.inl ha1chain))
        omega

lemma longestLoop_head_bound (k : Nat) (a : Int) (u w : List Int) :
    ∀ (f : Int) (r : List Int), f :: r = u ++ chainL a (k + 1) ++ w →
    k + 1 ≤ longestLoop f 1 1 r := by
  intro f r heq
  cases u with
  | nil =>
    simp only [chainL, List.nil_append, List.cons_append] at heq
    injection heq with h1 h2
    subst h2
    rw [h1]
    obtain ⟨M, hM, hloop⟩ := longestLoop_chain k a 1 1 w (le_refl 1)
    rw [hloop]
    have hge := longestLoop_ge_max w (a + (k : Int)) (1 + k) M
    omega
  | cons b u2 =>
    simp only [chainL, List.cons_append, List.append_assoc] at heq
    injection heq with h1 h2
    subst h2
    rw [h1]
    obtain ⟨c, m, hc, hcm, hreach⟩ :=
      longestLoop_reach u2 b 1 1 a (chainL (a + 1) k ++ w) (le_refl 1) (le_refl 1)
    rw [hreach]
    obtain ⟨M, hM, hloop⟩ := longestLoop_chain k a c m w hcm
    rw [hloop]
    have hge := longestLoop_ge_max w (a + (k : Int)) (c + k) M
    omega

/-- C1 (amended): for every habit state whose `completionDates` contains
no duplicate entry — out-of-range entries are still arbitrary — and for
every evaluation date, the longest streak is at least the current
streak.  The unrestricted claim fails when an entry is duplicated: the
duplicate resets the sorted scan of `calculateLongestStreak` while the
backward walk of `calculateCurrentStreak` is unaffected. -/
theorem c1_longest_ge_current (habit : Habit) (today : Int)
    (hnodup : (datesOf habit).Nodup) :
    calculateCurrentStreak habit today ≤ calculateLongestStreak habit := by
  rcases Nat.eq_zero_or_pos (calculateCurrentStreak habit today) with h0 | hpos
  · rw [h0]; exact Nat.zero_le _
  · obtain ⟨j, hkj⟩ : ∃ j, calculateCurrentStreak habit today = j + 1 :=
      ⟨calculateCurrentStreak habit today - 1, by omega⟩
    have hprop : ∀ i : Nat, i < j + 1 →
        isDateWithinRange habit (today - (i : Int)) = true ∧
          isHabitCompletedOnDate habit (today - (i : Int)) = true := by
      intro i hi
      refine streakAux_mem habit ((today - habit.startDate + 1).toNat) today i ?_
      change i < calculateCurrentStreak habit today
      omega
    have hchain : ∀ i : Nat, i < j + 1 →
        (today - (j : Int)) + (i : Int)
          ∈ (datesOf habit).filter (fun d => isDateWithinRange habit d) := by
      intro i hi
      have e : (today - (j : Int)) + (i : Int) = today - ((j - i : Nat) : Int) := by
        omega
      rw [e]
      obtain ⟨hin, hcomp⟩ := hprop (j - i) (by omega)
      rw [completed_eq_contains] at hcomp
      exact List.mem_filter.mpr ⟨List.elem_iff.mp hcomp, hin⟩
    set S := List.insertionSort (· ≤ ·)
      ((datesOf habit).filter (fun d => isDateWithinRange habit d)) with hSdef
    have hSperm : S.Perm ((datesOf habit).filter (fun d => isDateWithinRange habit d)) :=
      List.perm_insertionSort _ _
    have hSsorted : List.Sorted (· ≤ ·) S := List.sorted_insertionSort _ _
    have hSnodup : S.Nodup := (hSperm.nodup_iff).mpr (hnodup.filter _)
    have hmemS : ∀ i : Nat, i < j + 1 → (today - (j : Int)) + (i : Int) ∈ S :=
      fun i hi => (hSperm.mem_iff).mpr (hchain i hi)
    obtain ⟨u, w, hSeq⟩ :=
      chain_decomposition (j + 1) (today - (j : Int)) S hSsorted hSnodup hmemS
    rw [longestStreak_eq habit, hkj, ← hSdef]
    cases hS2 : S with
    | nil =>
      exfalso
      have := hmemS 0 (by omega)
      rw [hS2] at this
      exact absurd this (List.not_mem_nil _)
    | cons f r =>
      show j + 1 ≤ longestLoop f 1 1 r
      exact longestLoop_head_bound j (today - (j : Int)) u w f r (by rw [← hS2, hSeq])

/-- Witness for `c1_longest_ge_current`: a duplicate-free habit with an
out-of-range entry, current streak 3 at today = 2, longest streak 3. -/
theorem c1_longest_ge_current_witness :
    (datesOf { id := "x", startDate := 0, endDate := 9,
               completionDates := some [0, 1, 2, 50] : Habit }).Nodup ∧
    calculateCurrentStreak
        { id := "x", startDate := 0, endDate := 9,
          completionDates := some [0, 1, 2, 50] } 2
      ≤ calculateLongestStreak
        { id := "x", startDate := 0, endDate := 9,
          completionDates := some [0, 1, 2, 50] } :=
  ⟨by decide,
    c1_longest_ge_current
      { id := "x", startDate := 0, endDate := 9,
        completionDates := some [0, 1, 2, 50] } 2 (by decide)⟩

lemma inRange_false_of_below (habit : Habit) (d : Int)
    (h : d < habit.startDate) : isDateWithinRange habit d = false := by
  simp only [isDateWithinRange, Bool.and_eq_false_iff, decide_eq_false_iff_not,
    not_le]
  left
  omega

/-- The fuel argument of `streakAux` is irrelevant once it covers the
walk down to the range start, so `calculateCurrentStreak` computes the
source's unbounded while loop. -/
lemma streakAux_fuel_sufficient (habit : Habit) :
    ∀ (fuel fuel2 : Nat) (d : Int),
    (d - habit.startDate + 1).toNat ≤ fuel →
    (d - habit.startDate + 1).toNat ≤ fuel2 →
    streakAux habit fuel d = streakAux habit fuel2 d := by
  intro fuel
  induction fuel with
  | zero =>
    intro fuel2 d h1 h2
    have hout : isDateWithinRange habit d = false :=
      inRange_false_of_below habit d (by omega)
    have hg : (isDateWithinRange habit d && isHabitCompletedOnDate habit d)
        = false := by
      rw [hout, Bool.false_and]
    cases fuel2 with
    | zero => rfl
    | succ m =>
      simp only [streakAux]
      rw [if_neg (by simp [hg])]
  | succ n ih =>
    intro fuel2 d h1 h2
    cases fuel2 with
    | zero =>
      have hout : isDateWithinRange habit d = false :=
        inRange_false_of_below habit d (by omega)
      have hg : (isDateWithinRange habit d && isHabitCompletedOnDate habit d)
          = false := by
        rw [hout, Bool.false_and]
      simp only [streakAux]
      rw [if_neg (by simp [hg])]
    | succ m =>
      by_cases hg : (isDateWithinRange habit d && isHabitCompletedOnDate habit d)
          = true
      · have hin : habit.startDate ≤ d := by
          rw [Bool.and_eq_true] at hg
          have hr := hg.1
          simp only [isDateWithinRange, Bool.and_eq_true, decide_eq_true_eq] at hr
          exact hr.1
        simp only [streakAux]
        rw [if_pos hg, if_pos hg, ih m (d - 1) (by omega) (by omega)]
      · simp only [streakAux]
        rw [if_neg hg, if_neg hg]

/-- C8: `calculateLongestStreak` equals the scan (`longestLoop`, seeded
with running and maximal streak 1, extending on day-difference exactly 1
and resetting otherwise) of the ascending sort of the in-range filtered
completion dates; it is 0 when the filtered set is empty and at least 1
whenever an in-range completion exists. -/
theorem c8_longest_streak_spec (habit : Habit) :
    (calculateLongestStreak habit
      = match List.insertionSort (· ≤ ·)
            ((datesOf habit).filter (fun d => isDateWithinRange habit d)) with
        | [] => 0
        | first :: rest => longestLoop first 1 1 rest) ∧
    ((datesOf habit).filter (fun d => isDateWithinRange habit d) = [] →
      calculateLongestStreak habit = 0) ∧
    ((datesOf habit).filter (fun d => isDateWithinRange habit d) ≠ [] →
      1 ≤ calculateLongestStreak habit) := by
  refine ⟨longestStreak_eq habit, ?_, ?_⟩
  · intro hnil
    rw [longestStreak_eq habit, hnil]
    rfl
  · intro hne
    rw [longestStreak_eq habit]
    have hperm := List.perm_insertionSort (· ≤ ·)
      ((datesOf habit).filter (fun d => isDateWithinRange habit d))
    cases hS : List.insertionSort (· ≤ ·)
        ((datesOf habit).filter (fun d => isDateWithinRange habit d)) with
    | nil =>
      exfalso
      rw [hS] at hperm
      exact hne hperm.nil_eq.symm
    | cons f r =>
      show 1 ≤ longestLoop f 1 1 r
      exact longestLoop_ge_max r f 1 1

/-- Witness for `c8_longest_streak_spec`: a habit with one in-range and
one out-of-range completion has a nonempty filtered set and longest
streak at least 1. -/
theorem c8_longest_streak_spec_witness :
    ((datesOf { id := "w", startDate := 0, endDate := 9,
                completionDates := some [50, 3] : Habit }).filter
        (fun d => isDateWithinRange
          { id := "w", startDate := 0, endDate := 9,
            completionDates := some [50, 3] } d) ≠ []) ∧
    1 ≤ calculateLongestStreak
        { id := "w", startDate := 0, endDate := 9,
          completionDates := some [50, 3] } :=
  ⟨by decide,
    (c8_longest_streak_spec
      { id := "w", startDate := 0, endDate := 9,
        completionDates := some [50, 3] }).2.2 (by decide)⟩
